import Mathlib

/-!
Shallow embedding of the record-storage core of the repository
(src/user_input.cpp, with the near-duplicate variant src/tempCodeRunnerFile.cpp
for the functions where the two differ), together with theorems checking the
natural-language specification against it.

Modelling conventions:
- a C string pointer (char pointer) is an Option String, none standing for
  the null pointer; record payloads are opaque Strings;
- machine ints that the program can make negative (page capacities, record
  counts) are Int; cursor indices that start at 0 and only grow are Nat;
- an out-of-bounds array access, which is undefined behavior in the source,
  makes the modelled operation return none (for writes) or is guarded by an
  explicit in-bounds hypothesis (for reads);
- the scan operator state carries an extra ghost field, freed, recording the
  indices of the table-owned pages the operator has deleted; it changes no
  observable behavior and only makes the deallocations of the source visible
  to theorems.
-/

namespace DbEngine

/-- Model of struct Page (user_input.cpp lines 7-26): a fixed allocation of
record slots (char pointer each, null when unwritten), a record count, and the
reserved header field. The constructor Page(int numRecords) allocates that many
slots, nulls them, and sets the count member to the SAME argument. -/
structure Page where
  header : Option Unit
  records : List (Option String)
  numRecords : Int
deriving Repr, DecidableEq

/-- Model of the constructor Page(int numRecords): header := nullptr, an
allocation of numRecords null slots, and the count member initialized to
numRecords (the capacity argument, not zero). A negative argument would make
new char pointer array of negative size undefined behavior in C++; it is
modelled as an empty allocation and is never reached from a table whose
capacity is positive. -/
def Page.new (n : Int) : Page :=
  { header := none, records := List.replicate n.toNat none, numRecords := n }

/-- Model of struct Table (user_input.cpp lines 29-59). -/
structure Table where
  name : String
  pages : List Page
  numRecordsPerPage : Int
deriving Repr, DecidableEq

/-- Model of Table::addPage: pages.push_back(new Page(numRecordsPerPage)). -/
def Table.addPage (t : Table) : Table :=
  { t with pages := t.pages ++ [Page.new t.numRecordsPerPage] }

/-- Model of Table::addRecord (user_input.cpp lines 49-58): append a page when
there are no pages or the last page's count equals the capacity, then write the
payload at slot index lastPage.numRecords and increment that count. The source
performs records[recordIndex] = new char[...] unconditionally; an index outside
the allocated slot array is undefined behavior, modelled by returning none. -/
def Table.addRecord (t : Table) (record : String) : Option Table :=
  let t1 :=
    if t.pages.isEmpty || (t.pages.getLast?.map Page.numRecords == some t.numRecordsPerPage)
    then t.addPage else t
  match t1.pages.getLast? with
  | none => none
  | some lastPage =>
    let recordIndex : Int := lastPage.numRecords
    if 0 ≤ recordIndex ∧ recordIndex.toNat < lastPage.records.length then
      some { t1 with pages := t1.pages.dropLast ++
        [{ lastPage with
             records := lastPage.records.set recordIndex.toNat (some record),
             numRecords := recordIndex + 1 }] }
    else none

/-- Error outcomes of the catalog operations. The source reports the first two
on cerr and returns; undefinedBehavior marks an out-of-bounds slot write inside
addRecord (the post-state of the real program is unspecified there). -/
inductive DbError where
  | alreadyExists
  | notFound
  | undefinedBehavior
deriving Repr, DecidableEq

/-- Model of class Database (user_input.cpp lines 62-101): the unordered_map
from table name to Table, modelled as an association list. -/
structure Database where
  tables : List (String × Table)
deriving Repr, DecidableEq

/-- Fresh Database with no tables. -/
def Database.empty : Database := ⟨[]⟩

/-- Model of Database::getTable: the map lookup, null pointer when absent. -/
def Database.getTable (db : Database) (name : String) : Option Table :=
  db.tables.lookup name

/-- Model of Database::createTable (user_input.cpp lines 73-80): if the name is
already bound, report the error and change nothing; otherwise bind the name to
a new Table with the given per-page record capacity. -/
def Database.createTable (db : Database) (name : String) (recordsPerPage : Int) :
    Database × Except DbError Unit :=
  if (db.tables.lookup name).isSome then
    (db, .error .alreadyExists)
  else
    ({ tables := db.tables ++ [(name, Table.mk name [] recordsPerPage)] }, .ok ())

/-- Model of Database::insertInto (user_input.cpp lines 83-92): if the name is
unbound, report the error and change nothing; otherwise delegate to addRecord
on the bound table. -/
def Database.insertInto (db : Database) (tableName : String) (record : String) :
    Database × Except DbError Unit :=
  match db.tables.lookup tableName with
  | none => (db, .error .notFound)
  | some t =>
    match t.addRecord record with
    | none => (db, .error .undefinedBehavior)
    | some t1 =>
      ({ tables := db.tables.map (fun kv => if kv.1 == tableName then (kv.1, t1) else kv) },
       .ok ())

/-- Model of DiskManager::getPage (user_input.cpp lines 106-111): the page at
pageNum if pageNum is below the page count, else the null pointer. -/
def DiskManager.getPage (t : Table) (pageNum : Nat) : Option Page :=
  t.pages[pageNum]?

/-- Mutable state of class TableScanOperator (user_input.cpp lines 122-158):
the record cursor, the page cursor, and the currently held page pointer. The
ghost field freed records the indices of table-owned pages the operator has
deleted. -/
structure ScanState where
  currentRecordIndex : Nat
  currentPageNum : Nat
  currentPage : Option Page
  freed : List Nat
deriving Repr, DecidableEq

/-- Model of the TableScanOperator constructor: both cursors at 0 and the
current page fetched through the disk manager at page number 0. -/
def ScanState.init (t : Table) : ScanState :=
  ⟨0, 0, DiskManager.getPage t 0, []⟩

/-- Model of TableScanOperator::Next of user_input.cpp (lines 135-151): while
the current page is null or the record cursor has reached its count, advance
the page cursor, delete the previously held page (recorded in freed), and
refetch; a null fetch returns the null pointer (end of stream). Otherwise
return the slot at the record cursor and bump the cursor. The slot read
records[currentRecordIndex] is undefined behavior when the cursor is outside
the allocated slot array; the model totalizes it with getD, and theorems that
depend on that read carry an explicit in-bounds hypothesis. -/
def TableScanOperator.next (t : Table) (s : ScanState) : Option String × ScanState :=
  match s.currentPage with
  | some p =>
    if (s.currentRecordIndex : Int) < p.numRecords then
      (p.records.getD s.currentRecordIndex none,
       { s with currentRecordIndex := s.currentRecordIndex + 1 })
    else
      match h2 : DiskManager.getPage t (s.currentPageNum + 1) with
      | none => (none, { s with currentPageNum := s.currentPageNum + 1,
                                currentPage := none,
                                freed := s.freed ++ [s.currentPageNum] })
      | some p2 => TableScanOperator.next t
          ⟨0, s.currentPageNum + 1, some p2, s.freed ++ [s.currentPageNum]⟩
  | none =>
    match h2 : DiskManager.getPage t (s.currentPageNum + 1) with
    | none => (none, { s with currentPageNum := s.currentPageNum + 1,
                              currentPage := none })
    | some p2 => TableScanOperator.next t
        ⟨0, s.currentPageNum + 1, some p2, s.freed⟩
termination_by t.pages.length - s.currentPageNum
decreasing_by
  all_goals
    simp only [DiskManager.getPage] at h2
    obtain ⟨hlt, -⟩ := List.getElem?_eq_some_iff.mp h2
    omega

/-- Model of the TableScanOperator destructor (user_input.cpp lines 153-157):
it deletes the currently held page if non-null; the result is the list of page
indices that delete frees (the held page is always a table-owned page). -/
def TableScanOperator.destructorFreed (s : ScanState) : List Nat :=
  match s.currentPage with
  | some _ => [s.currentPageNum]
  | none => []

/-- Model of TableScanOperator::Next of tempCodeRunnerFile.cpp (lines 139-155):
if the current page is null, return null with the state unchanged; if the
record cursor is below the count, return that slot and bump the cursor;
otherwise advance the page cursor, delete the held page, refetch, and recurse. -/
def TableScanOperator.nextV2 (t : Table) (s : ScanState) : Option String × ScanState :=
  match s.currentPage with
  | none => (none, s)
  | some p =>
    if (s.currentRecordIndex : Int) < p.numRecords then
      (p.records.getD s.currentRecordIndex none,
       { s with currentRecordIndex := s.currentRecordIndex + 1 })
    else
      match h2 : DiskManager.getPage t (s.currentPageNum + 1) with
      | none => (none, { s with currentPageNum := s.currentPageNum + 1,
                                currentPage := none,
                                freed := s.freed ++ [s.currentPageNum] })
      | some p2 => TableScanOperator.nextV2 t
          ⟨0, s.currentPageNum + 1, some p2, s.freed ++ [s.currentPageNum]⟩
termination_by t.pages.length - s.currentPageNum
decreasing_by
  simp only [DiskManager.getPage] at h2
  obtain ⟨hlt, -⟩ := List.getElem?_eq_some_iff.mp h2
  omega

/-- State of the scan operator after n calls to Next (user_input.cpp variant),
starting from state s. -/
def scanIter (t : Table) (s : ScanState) : Nat → ScanState
  | 0 => s
  | n+1 => scanIter t (TableScanOperator.next t s).2 n

/-- Value returned by the call number n (counting from 0) of Next
(user_input.cpp variant) when the operator starts in state s. -/
def nthOut (t : Table) (s : ScanState) (n : Nat) : Option String :=
  (TableScanOperator.next t (scanIter t s n)).1

/-- Values returned by the first n calls to Next (user_input.cpp variant),
in call order. -/
def outs (t : Table) (s : ScanState) : Nat → List (Option String)
  | 0 => []
  | n+1 => (TableScanOperator.next t s).1 :: outs t (TableScanOperator.next t s).2 n

/-- State of the scan operator after n calls to Next
(tempCodeRunnerFile.cpp variant). -/
def scanIterV2 (t : Table) (s : ScanState) : Nat → ScanState
  | 0 => s
  | n+1 => scanIterV2 t (TableScanOperator.nextV2 t s).2 n

/-- Value returned by the call number n of Next (tempCodeRunnerFile.cpp
variant). -/
def nthOutV2 (t : Table) (s : ScanState) (n : Nat) : Option String :=
  (TableScanOperator.nextV2 t (scanIterV2 t s n)).1

/-- Total number of record slots the counts of the pages claim, used only to
bound the length of a scan (every produced record strictly decreases the
measure scanMeasure below). -/
def totalRecords (t : Table) : Nat :=
  (t.pages.map (fun p => p.numRecords.toNat)).sum

/-- Count of the records the scan can still produce from state s: what remains
of the current page plus the counts of all later pages. Strictly decreases at
every call to Next that returns a record (theorem next_measure_lt). -/
def scanMeasure (t : Table) (s : ScanState) : Nat :=
  (match s.currentPage with
   | some p => p.numRecords.toNat - s.currentRecordIndex
   | none => 0) +
  ((t.pages.drop (s.currentPageNum + 1)).map (fun p => p.numRecords.toNat)).sum

/-- Model of the record-pulling loop of ExecutionEngine::executeSelect
(user_input.cpp lines 186-190): call Next and hand each returned record to the
sink (cout in the source) until Next returns the null pointer. The C++ loop
needs no fuel; the fuel argument makes the model structurally recursive, and
executeSelect passes a fuel larger than scanMeasure of the initial state, which
theorem driveFuel_spec shows is never exhausted before the loop ends on a null
return. -/
def driveFuel (t : Table) : Nat → ScanState → List String
  | 0, _ => []
  | fuel+1, s =>
    match TableScanOperator.next t s with
    | (some r, s2) => r :: driveFuel t fuel s2
    | (none, _) => []

/-- Model of ExecutionEngine::executeSelect (user_input.cpp lines 179-191):
look the table up, report an error when absent (none), otherwise construct a
fresh TableScanOperator and pull it to the first null return, collecting the
records handed to the sink. -/
def ExecutionEngine.executeSelect (db : Database) (name : String) :
    Option (List String) :=
  match db.getTable name with
  | none => none
  | some t => some (driveFuel t (totalRecords t + 1) (ScanState.init t))

/-- Memory-safety bound taken from the data model of the spec: each page's
record count stays within its allocated slot array. Reads of the scan operator
are within bounds exactly on such tables. -/
def InBounds (t : Table) : Prop :=
  ∀ p ∈ t.pages, p.numRecords.toNat ≤ p.records.length

/-- Well-formed table in the sense of the data-model invariant of the spec:
every page's count is within its allocation and every slot below the count
holds a record (is non-null). -/
def WFTable (t : Table) : Prop :=
  ∀ p ∈ t.pages, p.numRecords.toNat ≤ p.records.length ∧
    ∀ i < p.numRecords.toNat, (p.records.getD i none).isSome

instance (t : Table) : Decidable (InBounds t) := by
  unfold InBounds; infer_instance

instance (t : Table) : Decidable (WFTable t) := by
  unfold WFTable; infer_instance

/-- Consistency of a scan state with its table: the held page pointer is
exactly what the disk manager hands out for the current page number. This
holds at construction and is preserved by every call to Next. -/
def ScanInv (t : Table) (s : ScanState) : Prop :=
  s.currentPage = DiskManager.getPage t s.currentPageNum

/-- End-of-table state of the user_input.cpp scan: the held page is null and
the page cursor is past every page of the table. -/
def Exhausted (t : Table) (s : ScanState) : Prop :=
  s.currentPage = none ∧ t.pages.length ≤ s.currentPageNum

/-- Consistency of a scan state with its table for the recursive variant: the
held page is either null or exactly what the disk manager hands out for the
current page number. -/
def ScanInvV2 (t : Table) (s : ScanState) : Prop :=
  s.currentPage = none ∨ s.currentPage = DiskManager.getPage t s.currentPageNum

/-! Step lemmas: the value of one Next call in each branch of its control
flow, for both source variants. -/

theorem next_read (t : Table) (s : ScanState) (p : Page)
    (hcur : s.currentPage = some p)
    (hidx : (s.currentRecordIndex : Int) < p.numRecords) :
    TableScanOperator.next t s =
      (p.records.getD s.currentRecordIndex none,
       { s with currentRecordIndex := s.currentRecordIndex + 1 }) := by
  rw [TableScanOperator.next, hcur]
  simp [hidx]

theorem next_adv_stop (t : Table) (s : ScanState) (p : Page)
    (hcur : s.currentPage = some p)
    (hidx : ¬ (s.currentRecordIndex : Int) < p.numRecords)
    (hgp : DiskManager.getPage t (s.currentPageNum + 1) = none) :
    TableScanOperator.next t s =
      (none, { s with currentPageNum := s.currentPageNum + 1,
                      currentPage := none,
                      freed := s.freed ++ [s.currentPageNum] }) := by
  rw [TableScanOperator.next, hcur]
  simp only [hidx, if_false]
  split
  · rfl
  · rename_i p2 hp2
    rw [hgp] at hp2
    exact absurd hp2 (by simp)

theorem next_adv_go (t : Table) (s : ScanState) (p p2 : Page)
    (hcur : s.currentPage = some p)
    (hidx : ¬ (s.currentRecordIndex : Int) < p.numRecords)
    (hgp : DiskManager.getPage t (s.currentPageNum + 1) = some p2) :
    TableScanOperator.next t s =
      TableScanOperator.next t
        ⟨0, s.currentPageNum + 1, some p2, s.freed ++ [s.currentPageNum]⟩ := by
  rw [TableScanOperator.next, hcur]
  simp only [hidx, if_false]
  split
  · rename_i hp2
    rw [hgp] at hp2
    exact absurd hp2 (by simp)
  · rename_i p3 hp3
    rw [hgp] at hp3
    cases hp3
    rfl

theorem next_none_stop (t : Table) (s : ScanState)
    (hcur : s.currentPage = none)
    (hgp : DiskManager.getPage t (s.currentPageNum + 1) = none) :
    TableScanOperator.next t s =
      (none, { s with currentPageNum := s.currentPageNum + 1,
                      currentPage := none }) := by
  rw [TableScanOperator.next, hcur]
  split
  · rename_i p hp
    exact Option.noConfusion hp
  · split
    · rfl
    · rename_i p2 hp2
      rw [hgp] at hp2
      exact Option.noConfusion hp2

theorem next_none_go (t : Table) (s : ScanState) (p2 : Page)
    (hcur : s.currentPage = none)
    (hgp : DiskManager.getPage t (s.currentPageNum + 1) = some p2) :
    TableScanOperator.next t s =
      TableScanOperator.next t ⟨0, s.currentPageNum + 1, some p2, s.freed⟩ := by
  rw [TableScanOperator.next, hcur]
  split
  · rename_i p hp
    exact Option.noConfusion hp
  · split
    · rename_i hp2
      rw [hgp] at hp2
      exact Option.noConfusion hp2
    · rename_i p3 hp3
      rw [hgp] at hp3
      cases hp3
      rfl

theorem nextV2_none (t : Table) (s : ScanState)
    (hcur : s.currentPage = none) :
    TableScanOperator.nextV2 t s = (none, s) := by
  rw [TableScanOperator.nextV2, hcur]

theorem nextV2_read (t : Table) (s : ScanState) (p : Page)
    (hcur : s.currentPage = some p)
    (hidx : (s.currentRecordIndex : Int) < p.numRecords) :
    TableScanOperator.nextV2 t s =
      (p.records.getD s.currentRecordIndex none,
       { s with currentRecordIndex := s.currentRecordIndex + 1 }) := by
  rw [TableScanOperator.nextV2, hcur]
  simp [hidx]

theorem nextV2_adv_stop (t : Table) (s : ScanState) (p : Page)
    (hcur : s.currentPage = some p)
    (hidx : ¬ (s.currentRecordIndex : Int) < p.numRecords)
    (hgp : DiskManager.getPage t (s.currentPageNum + 1) = none) :
    TableScanOperator.nextV2 t s =
      (none, { s with currentPageNum := s.currentPageNum + 1,
                      currentPage := none,
                      freed := s.freed ++ [s.currentPageNum] }) := by
  rw [TableScanOperator.nextV2, hcur]
  simp only [hidx, if_false]
  split
  · rfl
  · rename_i p2 hp2
    rw [hgp] at hp2
    exact absurd hp2 (by simp)

theorem nextV2_adv_go (t : Table) (s : ScanState) (p p2 : Page)
    (hcur : s.currentPage = some p)
    (hidx : ¬ (s.currentRecordIndex : Int) < p.numRecords)
    (hgp : DiskManager.getPage t (s.currentPageNum + 1) = some p2) :
    TableScanOperator.nextV2 t s =
      TableScanOperator.nextV2 t
        ⟨0, s.currentPageNum + 1, some p2, s.freed ++ [s.currentPageNum]⟩ := by
  rw [TableScanOperator.nextV2, hcur]
  simp only [hidx, if_false]
  split
  · rename_i hp2
    rw [hgp] at hp2
    exact absurd hp2 (by simp)
  · rename_i p3 hp3
    rw [hgp] at hp3
    cases hp3
    rfl

/-- Decomposition of the tail sum of page counts at a page the disk manager
can fetch. -/
theorem tailSum_decomp (t : Table) (pn : Nat) (p2 : Page)
    (hgp : DiskManager.getPage t (pn + 1) = some p2) :
    ((t.pages.drop (pn + 1)).map (fun p => p.numRecords.toNat)).sum =
      p2.numRecords.toNat +
      ((t.pages.drop (pn + 1 + 1)).map (fun p => p.numRecords.toNat)).sum := by
  simp only [DiskManager.getPage] at hgp
  obtain ⟨hlt, hel⟩ := List.getElem?_eq_some_iff.mp hgp
  rw [List.drop_eq_getElem_cons hlt, hel, List.map_cons, List.sum_cons]

/-- Every call to Next (user_input.cpp variant) that returns a record strictly
decreases the scan measure. -/
theorem next_measure_lt (t : Table) (s : ScanState) :
    ∀ r s2, TableScanOperator.next t s = (some r, s2) →
      scanMeasure t s2 < scanMeasure t s := by
  induction s using TableScanOperator.next.induct t with
  | case1 x p hcur hidx =>
    intro r s2 h
    rw [next_read t x p hcur hidx] at h
    injection h with h1 h2
    subst h2
    simp only [scanMeasure, hcur]
    have : x.currentRecordIndex < p.numRecords.toNat := by omega
    omega
  | case2 x p hcur hidx hgp =>
    intro r s2 h
    rw [next_adv_stop t x p hcur hidx hgp] at h
    injection h with h1 h2
    exact Option.noConfusion h1
  | case3 x p hcur hidx p2 hgp ih =>
    intro r s2 h
    rw [next_adv_go t x p p2 hcur hidx hgp] at h
    have hlt := ih r s2 h
    have hdec := tailSum_decomp t x.currentPageNum p2 hgp
    simp only [scanMeasure, hcur] at hlt hdec ⊢
    omega
  | case4 x hcur hgp =>
    intro r s2 h
    rw [next_none_stop t x hcur hgp] at h
    injection h with h1 h2
    exact Option.noConfusion h1
  | case5 x hcur p2 hgp ih =>
    intro r s2 h
    rw [next_none_go t x p2 hcur hgp] at h
    have hlt := ih r s2 h
    have hdec := tailSum_decomp t x.currentPageNum p2 hgp
    simp only [scanMeasure, hcur] at hlt hdec ⊢
    omega

/-! Invariant and exhaustion lemmas for the user_input.cpp scan. -/

theorem scanInv_init (t : Table) : ScanInv t (ScanState.init t) := rfl

theorem next_preserves_inv (t : Table) (s : ScanState) (hinv : ScanInv t s) :
    ScanInv t (TableScanOperator.next t s).2 := by
  induction s using TableScanOperator.next.induct t with
  | case1 x p hcur hidx =>
    rw [next_read t x p hcur hidx]
    simp only [ScanInv] at hinv ⊢
    exact hinv
  | case2 x p hcur hidx hgp =>
    rw [next_adv_stop t x p hcur hidx hgp]
    simp only [ScanInv]
    exact hgp.symm
  | case3 x p hcur hidx p2 hgp ih =>
    rw [next_adv_go t x p p2 hcur hidx hgp]
    exact ih hgp.symm
  | case4 x hcur hgp =>
    rw [next_none_stop t x hcur hgp]
    simp only [ScanInv]
    exact hgp.symm
  | case5 x hcur p2 hgp ih =>
    rw [next_none_go t x p2 hcur hgp]
    exact ih hgp.symm

theorem exhausted_next_eq (t : Table) (s : ScanState) (hex : Exhausted t s) :
    TableScanOperator.next t s =
      (none, { s with currentPageNum := s.currentPageNum + 1,
                      currentPage := none }) := by
  obtain ⟨hcur, hlen⟩ := hex
  apply next_none_stop t s hcur
  simp only [DiskManager.getPage]
  exact List.getElem?_eq_none (by omega)

theorem exhausted_step (t : Table) (s : ScanState) (hex : Exhausted t s) :
    (TableScanOperator.next t s).1 = none ∧
    Exhausted t (TableScanOperator.next t s).2 := by
  rw [exhausted_next_eq t s hex]
  exact ⟨rfl, rfl, by have := hex.2; simp; omega⟩

theorem next_none_exhausted (t : Table) (hwf : WFTable t) (s : ScanState) :
    ∀ s2, ScanInv t s → TableScanOperator.next t s = (none, s2) →
      Exhausted t s2 := by
  induction s using TableScanOperator.next.induct t with
  | case1 x p hcur hidx =>
    intro s2 hinv h
    rw [next_read t x p hcur hidx] at h
    injection h with h1 h2
    have hmem : p ∈ t.pages := by
      have hg := hcur.symm.trans hinv
      simp only [DiskManager.getPage] at hg
      exact List.getElem?_mem hg.symm
    obtain ⟨-, hsome⟩ := hwf p hmem
    have := hsome x.currentRecordIndex (by omega)
    rw [h1] at this
    simp at this
  | case2 x p hcur hidx hgp =>
    intro s2 hinv h
    rw [next_adv_stop t x p hcur hidx hgp] at h
    injection h with h1 h2
    subst h2
    simp only [DiskManager.getPage, List.getElem?_eq_none_iff] at hgp
    exact ⟨rfl, by simpa using hgp⟩
  | case3 x p hcur hidx p2 hgp ih =>
    intro s2 hinv h
    rw [next_adv_go t x p p2 hcur hidx hgp] at h
    exact ih s2 hgp.symm h
  | case4 x hcur hgp =>
    intro s2 hinv h
    rw [next_none_stop t x hcur hgp] at h
    injection h with h1 h2
    subst h2
    simp only [DiskManager.getPage, List.getElem?_eq_none_iff] at hgp
    exact ⟨rfl, by simpa using hgp⟩
  | case5 x hcur p2 hgp ih =>
    intro s2 hinv h
    rw [next_none_go t x p2 hcur hgp] at h
    exact ih s2 hgp.symm h

theorem scanIter_succ_back (t : Table) (s : ScanState) (n : Nat) :
    scanIter t s (n + 1) = (TableScanOperator.next t (scanIter t s n)).2 := by
  induction n generalizing s with
  | zero => rfl
  | succ n ih => exact ih (TableScanOperator.next t s).2

theorem scanInv_iter (t : Table) (s : ScanState) (hinv : ScanInv t s) (n : Nat) :
    ScanInv t (scanIter t s n) := by
  induction n generalizing s with
  | zero => exact hinv
  | succ n ih => exact ih (TableScanOperator.next t s).2 (next_preserves_inv t s hinv)

theorem exhausted_iter (t : Table) (s : ScanState) (m : Nat)
    (hex : Exhausted t (scanIter t s m)) :
    ∀ k, Exhausted t (scanIter t s (m + k)) := by
  intro k
  induction k with
  | zero => exact hex
  | succ k ih =>
    rw [show m + (k + 1) = (m + k) + 1 by omega, scanIter_succ_back]
    exact (exhausted_step t _ ih).2

/-- Driving loop characterization: with fuel strictly above the scan measure,
the collected sink list equals the values of the first calls to Next, all of
them records, and the very next call returns the null pointer: the loop always
ends because Next returned null, never because fuel ran out. -/
theorem driveFuel_spec (t : Table) :
    ∀ fuel s, scanMeasure t s < fuel →
      outs t s (driveFuel t fuel s).length = (driveFuel t fuel s).map some ∧
      nthOut t s (driveFuel t fuel s).length = none := by
  intro fuel
  induction fuel with
  | zero => intro s hs; omega
  | succ fuel ih =>
    intro s hs
    cases hnext : TableScanOperator.next t s with
    | mk v s2 =>
      cases v with
      | none =>
        have hd : driveFuel t (fuel + 1) s = [] := by
          simp only [driveFuel, hnext]
        rw [hd]
        constructor
        · rfl
        · simp only [List.length_nil, nthOut, scanIter, hnext]
      | some r =>
        have hd : driveFuel t (fuel + 1) s = r :: driveFuel t fuel s2 := by
          simp only [driveFuel, hnext]
        have hlt : scanMeasure t s2 < fuel := by
          have := next_measure_lt t s r s2 hnext
          omega
        obtain ⟨ih1, ih2⟩ := ih s2 hlt
        rw [hd]
        constructor
        · simp only [List.length_cons, outs, hnext, List.map_cons]
          exact congrArg (some r :: ·) ih1
        · simp only [List.length_cons, nthOut, scanIter, hnext]
          exact ih2

/-- The scan measure of a freshly constructed operator is the total declared
record count of the table. -/
theorem scanMeasure_init_le (t : Table) :
    scanMeasure t (ScanState.init t) ≤ totalRecords t := by
  cases hp : t.pages with
  | nil =>
    simp [scanMeasure, ScanState.init, DiskManager.getPage, totalRecords, hp]
  | cons p rest =>
    simp [scanMeasure, ScanState.init, DiskManager.getPage, totalRecords, hp]

/-! Lemmas for the tempCodeRunnerFile.cpp variant of Next. -/

theorem scanInvV2_init (t : Table) : ScanInvV2 t (ScanState.init t) :=
  Or.inr rfl

theorem nextV2_preserves_inv (t : Table) (s : ScanState) (hinv : ScanInvV2 t s) :
    ScanInvV2 t (TableScanOperator.nextV2 t s).2 := by
  induction s using TableScanOperator.nextV2.induct t with
  | case1 x hcur =>
    rw [nextV2_none t x hcur]
    exact hinv
  | case2 x p hcur hidx =>
    rw [nextV2_read t x p hcur hidx]
    rcases hinv with h | h
    · rw [hcur] at h; exact Option.noConfusion h
    · exact Or.inr h
  | case3 x p hcur hidx hgp =>
    rw [nextV2_adv_stop t x p hcur hidx hgp]
    exact Or.inl rfl
  | case4 x p hcur hidx p2 hgp ih =>
    rw [nextV2_adv_go t x p p2 hcur hidx hgp]
    exact ih (Or.inr hgp.symm)

theorem nextV2_none_result_none (t : Table) (hwf : WFTable t) (s : ScanState) :
    ∀ s2, ScanInvV2 t s → TableScanOperator.nextV2 t s = (none, s2) →
      s2.currentPage = none := by
  induction s using TableScanOperator.nextV2.induct t with
  | case1 x hcur =>
    intro s2 hinv h
    rw [nextV2_none t x hcur] at h
    injection h with h1 h2
    subst h2
    exact hcur
  | case2 x p hcur hidx =>
    intro s2 hinv h
    rw [nextV2_read t x p hcur hidx] at h
    injection h with h1 h2
    have hmem : p ∈ t.pages := by
      rcases hinv with hn | hg
      · rw [hcur] at hn; exact Option.noConfusion hn
      · have hg2 := hcur.symm.trans hg
        simp only [DiskManager.getPage] at hg2
        exact List.getElem?_mem hg2.symm
    obtain ⟨-, hsome⟩ := hwf p hmem
    have := hsome x.currentRecordIndex (by omega)
    rw [h1] at this
    simp at this
  | case3 x p hcur hidx hgp =>
    intro s2 hinv h
    rw [nextV2_adv_stop t x p hcur hidx hgp] at h
    injection h with h1 h2
    subst h2
    rfl
  | case4 x p hcur hidx p2 hgp ih =>
    intro s2 hinv h
    rw [nextV2_adv_go t x p p2 hcur hidx hgp] at h
    exact ih s2 (Or.inr hgp.symm) h

theorem scanIterV2_succ_back (t : Table) (s : ScanState) (n : Nat) :
    scanIterV2 t s (n + 1) = (TableScanOperator.nextV2 t (scanIterV2 t s n)).2 := by
  induction n generalizing s with
  | zero => rfl
  | succ n ih => exact ih (TableScanOperator.nextV2 t s).2

theorem scanInvV2_iter (t : Table) (s : ScanState) (hinv : ScanInvV2 t s) (n : Nat) :
    ScanInvV2 t (scanIterV2 t s n) := by
  induction n generalizing s with
  | zero => exact hinv
  | succ n ih => exact ih (TableScanOperator.nextV2 t s).2 (nextV2_preserves_inv t s hinv)

/-! Claim theorems. -/

/-- Claim C1 (refuted by the code, code_bug): the spec says that scanning after
a sequence of inserts yields exactly the inserted payloads in order. In the
code the very first insertInto into a freshly created table already performs an
out-of-bounds slot write, because the fresh page is constructed with its count
equal to the capacity, so the write goes to records[capacity] of a
capacity-sized array: evaluated here at the createTable("Students", 10) and
insert of the main function of the source. -/
theorem c1_insert_then_scan_fails :
    ((Database.empty.createTable "Students" 10).1.insertInto
        "Students" "jaehong, 1").2 =
      Except.error DbError.undefinedBehavior := by rfl

/-- Claim C2 (refuted by the code, code_bug): the spec says addRecord appends a
new EMPTY page (count 0) and then fills slot 0. In the code the appended page
has count equal to the capacity (here 1), and the subsequent slot write at
index equal to that count is out of bounds, so addRecord on a fresh table of
capacity 1 hits undefined behavior instead of storing the payload. -/
theorem c2_fresh_page_not_empty :
    (Table.mk "T" [] 1).addPage.pages.map Page.numRecords = [1] ∧
    (Table.mk "T" [] 1).addRecord "a" = none := by
  exact ⟨rfl, rfl⟩

/-- Claim C3 (refuted by the code, code_bug): with capacity C = 2 and N = 1
insert the spec predicts one page with count 1. In the code the single
appended page is born with count 2 (the capacity), and the insert itself is an
out-of-bounds write, so the page-count formula and the count invariant never
get a chance to hold. -/
theorem c3_page_accounting_fails :
    (Table.mk "T" [] 2).addPage.pages.map Page.numRecords = [2] ∧
    (Table.mk "T" [] 2).addRecord "a" = none := by
  exact ⟨rfl, rfl⟩

/-- Claim C6 (confirmed): createTable on an already-bound name fails with
AlreadyExists and leaves the catalog, including the previously bound table,
completely unchanged. -/
theorem c6_createTable_alreadyExists (db : Database) (name : String) (cap : Int)
    (hbound : (db.getTable name).isSome = true) :
    db.createTable name cap = (db, Except.error DbError.alreadyExists) := by
  simp only [Database.getTable] at hbound
  simp only [Database.createTable, hbound, if_true]

/-- Witness for C6: a concrete catalog in which "T" is bound; the second
createTable with the same name returns AlreadyExists and the same catalog. -/
theorem c6_createTable_alreadyExists_witness :
    (((Database.empty.createTable "T" 5).1.getTable "T").isSome = true) ∧
    (Database.empty.createTable "T" 5).1.createTable "T" 7 =
      ((Database.empty.createTable "T" 5).1, Except.error DbError.alreadyExists) :=
  ⟨rfl, c6_createTable_alreadyExists (Database.empty.createTable "T" 5).1 "T" 7 rfl⟩

/-- Claim C7 (confirmed): insertInto on an unbound name fails with NotFound
and has no effect at all: the returned catalog is the one passed in. -/
theorem c7_insertInto_notFound (db : Database) (name payload : String)
    (hunbound : db.getTable name = none) :
    db.insertInto name payload = (db, Except.error DbError.notFound) := by
  simp only [Database.getTable] at hunbound
  simp only [Database.insertInto, hunbound]

/-- Witness for C7: inserting into "Ghost" on the empty catalog returns
NotFound and the unchanged empty catalog. -/
theorem c7_insertInto_notFound_witness :
    Database.empty.getTable "Ghost" = none ∧
    Database.empty.insertInto "Ghost" "x" =
      (Database.empty, Except.error DbError.notFound) :=
  ⟨rfl, c7_insertInto_notFound Database.empty "Ghost" "x" rfl⟩

/-- Counterexample to claim C8: createTable with capacity 0 does NOT fail fast
and does bind: the call succeeds and the catalog afterwards maps "T" to a
table whose per-page capacity is 0, contradicting both the fail-fast clause
and the clause that no table with non-positive capacity is ever bound. -/
theorem c8_counterexample_nonpositive_binds :
    (Database.empty.createTable "T" 0).2 = Except.ok () ∧
    (Database.empty.createTable "T" 0).1.getTable "T" =
      some (Table.mk "T" [] 0) := by
  exact ⟨rfl, rfl⟩

/-- Lookup in an appended association list when the key misses the front
part. -/
theorem lookup_append_of_none {β : Type} (l1 l2 : List (String × β)) (a : String)
    (h : l1.lookup a = none) : (l1 ++ l2).lookup a = l2.lookup a := by
  induction l1 with
  | nil => rfl
  | cons kv l1 ih =>
    rw [List.cons_append]
    cases kv with
    | mk k b =>
      simp only [List.lookup] at h ⊢
      cases hk : a == k with
      | true => rw [hk] at h; exact Option.noConfusion h
      | false =>
        rw [hk] at h
        exact ih h

/-- Claim C8 as amended (the code performs no capacity validation): createTable
with a non-positive capacity succeeds and binds a table with exactly that
capacity; the violation only surfaces on the first insert into that table,
which is an out-of-bounds write (undefined behavior), not a reported
precondition failure. -/
theorem c8_createTable_no_capacity_check (db : Database) (name : String)
    (cap : Int) (hcap : cap ≤ 0) (hunbound : db.getTable name = none) :
    (db.createTable name cap).2 = Except.ok () ∧
    (db.createTable name cap).1.getTable name = some (Table.mk name [] cap) ∧
    ∀ payload, ((db.createTable name cap).1.insertInto name payload).2 =
      Except.error DbError.undefinedBehavior := by
  simp only [Database.getTable] at hunbound
  have hfind : (db.tables.lookup name).isSome = false := by
    rw [hunbound]; rfl
  have hdb1 : (db.createTable name cap).1 =
      { tables := db.tables ++ [(name, Table.mk name [] cap)] } := by
    simp only [Database.createTable, hfind, Bool.false_eq_true, if_false]
  have hlook : (db.tables ++ [(name, Table.mk name [] cap)]).lookup name =
      some (Table.mk name [] cap) := by
    rw [lookup_append_of_none db.tables _ name hunbound]
    simp [List.lookup]
  refine ⟨?_, ?_, ?_⟩
  · simp only [Database.createTable, hfind, Bool.false_eq_true, if_false]
  · rw [hdb1]
    simpa only [Database.getTable] using hlook
  · intro payload
    rw [hdb1]
    simp only [Database.insertInto, hlook]
    have haddrec : (Table.mk name [] cap).addRecord payload = none := by
      simp only [Table.addRecord, Table.addPage, Page.new]
      simp only [List.isEmpty_nil, Bool.true_or, if_true, List.nil_append,
        List.getLast?_singleton]
      rw [if_neg]
      simp only [List.length_replicate]
      omega
    rw [haddrec]

/-- On an unbound name, createTable appends the binding and reports success. -/
theorem createTable_fresh (db : Database) (name : String) (cap : Int)
    (hunbound : db.getTable name = none) :
    db.createTable name cap =
      ({ tables := db.tables ++ [(name, Table.mk name [] cap)] },
       Except.ok ()) := by
  simp only [Database.getTable] at hunbound
  have hfind : (db.tables.lookup name).isSome = false := by
    rw [hunbound]; rfl
  simp only [Database.createTable, hfind, Bool.false_eq_true, if_false]

/-- On an unbound name, createTable binds the name to the empty table with the
requested capacity. -/
theorem createTable_binds (db : Database) (name : String) (cap : Int)
    (hunbound : db.getTable name = none) :
    (db.createTable name cap).1.getTable name =
      some (Table.mk name [] cap) := by
  rw [createTable_fresh db name cap hunbound]
  simp only [Database.getTable] at hunbound ⊢
  rw [lookup_append_of_none db.tables _ name hunbound]
  simp [List.lookup]

/-- Claim C9 (confirmed): a table into which zero records have been inserted
(freshly created, hence with no pages) makes the very first Next call of a
fresh scan operator signal end-of-stream, in both source variants, and the
executeSelect driver over it produces zero records. -/
theorem c9_empty_table_scan_eos (db : Database) (name : String) (cap : Int)
    (hunbound : db.getTable name = none) :
    (db.createTable name cap).1.getTable name = some (Table.mk name [] cap) ∧
    (TableScanOperator.next (Table.mk name [] cap)
        (ScanState.init (Table.mk name [] cap))).1 = none ∧
    ExecutionEngine.executeSelect (db.createTable name cap).1 name = some [] ∧
    (TableScanOperator.nextV2 (Table.mk name [] cap)
        (ScanState.init (Table.mk name [] cap))).1 = none := by
  have hbind := createTable_binds db name cap hunbound
  have hinit : ScanState.init (Table.mk name [] cap) = ⟨0, 0, none, []⟩ := rfl
  have hnext : TableScanOperator.next (Table.mk name [] cap) ⟨0, 0, none, []⟩ =
      (none, ⟨0, 1, none, []⟩) := by
    rw [TableScanOperator.next]
    rfl
  refine ⟨hbind, ?_, ?_, ?_⟩
  · rw [hinit, hnext]
  · simp only [ExecutionEngine.executeSelect, hbind]
    have hdrive : driveFuel (Table.mk name [] cap)
        (totalRecords (Table.mk name [] cap) + 1)
        (ScanState.init (Table.mk name [] cap)) = [] := by
      rw [hinit]
      show driveFuel (Table.mk name [] cap) 1 ⟨0, 0, none, []⟩ = []
      simp only [driveFuel, hnext]
    rw [hdrive]
  · rw [hinit, nextV2_none _ _ rfl]

/-- Witness for C9: the empty catalog with name "Students" and capacity 10. -/
theorem c9_empty_table_scan_eos_witness :
    Database.empty.getTable "Students" = none ∧
    ((Database.empty.createTable "Students" 10).1.getTable "Students" =
        some (Table.mk "Students" [] 10) ∧
     (TableScanOperator.next (Table.mk "Students" [] 10)
         (ScanState.init (Table.mk "Students" [] 10))).1 = none ∧
     ExecutionEngine.executeSelect
         (Database.empty.createTable "Students" 10).1 "Students" = some [] ∧
     (TableScanOperator.nextV2 (Table.mk "Students" [] 10)
         (ScanState.init (Table.mk "Students" [] 10))).1 = none) :=
  ⟨rfl, c9_empty_table_scan_eos Database.empty "Students" 10 rfl⟩

/-- Claim C4 (refuted by the code, code_bug; the spec itself notes it corrects
this source flaw): the scan operator DOES deallocate table-owned storage.
Concretely, on a table holding one page with one record, the second Next call
deletes table page 0 while advancing past it (in both source variants), and
destroying the operator after the first call deletes the then-held table page
0 as well; the freed ghost field records exactly these deletions. -/
theorem c4_scan_frees_table_pages :
    (scanIter (Table.mk "T" [Page.mk none [some "a"] 1] 1)
        (ScanState.init (Table.mk "T" [Page.mk none [some "a"] 1] 1)) 2).freed
      = [0] ∧
    TableScanOperator.destructorFreed
        (scanIter (Table.mk "T" [Page.mk none [some "a"] 1] 1)
          (ScanState.init (Table.mk "T" [Page.mk none [some "a"] 1] 1)) 1)
      = [0] ∧
    (scanIterV2 (Table.mk "T" [Page.mk none [some "a"] 1] 1)
        (ScanState.init (Table.mk "T" [Page.mk none [some "a"] 1] 1)) 2).freed
      = [0] := by
  have h0 : ScanState.init (Table.mk "T" [Page.mk none [some "a"] 1] 1) =
      ⟨0, 0, some (Page.mk none [some "a"] 1), []⟩ := rfl
  have h1 : TableScanOperator.next (Table.mk "T" [Page.mk none [some "a"] 1] 1)
      ⟨0, 0, some (Page.mk none [some "a"] 1), []⟩ =
      (some "a", ⟨1, 0, some (Page.mk none [some "a"] 1), []⟩) := by
    rw [TableScanOperator.next]
    rfl
  have h2 : TableScanOperator.next (Table.mk "T" [Page.mk none [some "a"] 1] 1)
      ⟨1, 0, some (Page.mk none [some "a"] 1), []⟩ =
      (none, ⟨1, 1, none, [0]⟩) := by
    rw [TableScanOperator.next]
    rfl
  have h1v : TableScanOperator.nextV2 (Table.mk "T" [Page.mk none [some "a"] 1] 1)
      ⟨0, 0, some (Page.mk none [some "a"] 1), []⟩ =
      (some "a", ⟨1, 0, some (Page.mk none [some "a"] 1), []⟩) := by
    rw [TableScanOperator.nextV2]
    rfl
  have h2v : TableScanOperator.nextV2 (Table.mk "T" [Page.mk none [some "a"] 1] 1)
      ⟨1, 0, some (Page.mk none [some "a"] 1), []⟩ =
      (none, ⟨1, 1, none, [0]⟩) := by
    rw [TableScanOperator.nextV2]
    rfl
  refine ⟨?_, ?_, ?_⟩
  · show (TableScanOperator.next (Table.mk "T" [Page.mk none [some "a"] 1] 1)
        (TableScanOperator.next (Table.mk "T" [Page.mk none [some "a"] 1] 1)
          (ScanState.init (Table.mk "T" [Page.mk none [some "a"] 1] 1))).2).2.freed = [0]
    rw [h0]
    simp only [h1, h2]
  · show TableScanOperator.destructorFreed
        (TableScanOperator.next (Table.mk "T" [Page.mk none [some "a"] 1] 1)
          (ScanState.init (Table.mk "T" [Page.mk none [some "a"] 1] 1))).2 = [0]
    rw [h0]
    simp only [h1]
    rfl
  · show (TableScanOperator.nextV2 (Table.mk "T" [Page.mk none [some "a"] 1] 1)
        (TableScanOperator.nextV2 (Table.mk "T" [Page.mk none [some "a"] 1] 1)
          (ScanState.init (Table.mk "T" [Page.mk none [some "a"] 1] 1))).2).2.freed = [0]
    rw [h0]
    simp only [h1v, h2v]

/-- Once the recursive-variant operator holds no page, its state never changes
again. -/
theorem scanIterV2_frozen (t : Table) (s : ScanState) (m : Nat)
    (hc : (scanIterV2 t s m).currentPage = none) :
    ∀ k, scanIterV2 t s (m + k) = scanIterV2 t s m := by
  intro k
  induction k with
  | zero => rfl
  | succ k ih =>
    rw [show m + (k + 1) = (m + k) + 1 by omega, scanIterV2_succ_back, ih,
      nextV2_none t _ hc]

/-- Claim C5 (confirmed, over tables satisfying the data-model invariant of
the spec, under which the null return can only come from the exhaustion
branch): once a Next call has returned the end-of-stream signal, every later
Next call of the same operator returns it again, with no record and no error,
in both source variants. -/
theorem c5_exhaustion_terminal (t : Table) (hwf : WFTable t) :
    (∀ i j, i ≤ j → nthOut t (ScanState.init t) i = none →
        nthOut t (ScanState.init t) j = none) ∧
    (∀ i j, i ≤ j → nthOutV2 t (ScanState.init t) i = none →
        nthOutV2 t (ScanState.init t) j = none) := by
  constructor
  · intro i j hij hi
    rcases Nat.eq_or_lt_of_le hij with rfl | hlt
    · exact hi
    simp only [nthOut] at hi ⊢
    have hinv := scanInv_iter t (ScanState.init t) (scanInv_init t) i
    have hpair : TableScanOperator.next t (scanIter t (ScanState.init t) i) =
        ((TableScanOperator.next t (scanIter t (ScanState.init t) i)).1,
         (TableScanOperator.next t (scanIter t (ScanState.init t) i)).2) :=
      (Prod.mk.eta).symm
    rw [hi] at hpair
    have hexh : Exhausted t (scanIter t (ScanState.init t) (i + 1)) := by
      rw [scanIter_succ_back]
      exact next_none_exhausted t hwf _ _ hinv hpair
    obtain ⟨k, rfl⟩ : ∃ k, j = (i + 1) + k := ⟨j - (i + 1), by omega⟩
    have hexhj := exhausted_iter t (ScanState.init t) (i + 1) hexh k
    exact (exhausted_step t _ hexhj).1
  · intro i j hij hi
    rcases Nat.eq_or_lt_of_le hij with rfl | hlt
    · exact hi
    simp only [nthOutV2] at hi ⊢
    have hinv := scanInvV2_iter t (ScanState.init t) (scanInvV2_init t) i
    have hpair : TableScanOperator.nextV2 t (scanIterV2 t (ScanState.init t) i) =
        ((TableScanOperator.nextV2 t (scanIterV2 t (ScanState.init t) i)).1,
         (TableScanOperator.nextV2 t (scanIterV2 t (ScanState.init t) i)).2) :=
      (Prod.mk.eta).symm
    rw [hi] at hpair
    have hcur : (scanIterV2 t (ScanState.init t) (i + 1)).currentPage = none := by
      rw [scanIterV2_succ_back]
      exact nextV2_none_result_none t hwf _ _ hinv hpair
    obtain ⟨k, rfl⟩ : ∃ k, j = (i + 1) + k := ⟨j - (i + 1), by omega⟩
    rw [scanIterV2_frozen t (ScanState.init t) (i + 1) hcur k,
      nextV2_none t _ hcur]

/-- Witness for C5: a well-formed one-record table; call number 1 returns the
end-of-stream signal, and call number 3 does again, in both variants. -/
theorem c5_exhaustion_terminal_witness :
    WFTable (Table.mk "W" [Page.mk none [some "w"] 1] 1) ∧
    nthOut (Table.mk "W" [Page.mk none [some "w"] 1] 1)
      (ScanState.init (Table.mk "W" [Page.mk none [some "w"] 1] 1)) 1 = none ∧
    nthOut (Table.mk "W" [Page.mk none [some "w"] 1] 1)
      (ScanState.init (Table.mk "W" [Page.mk none [some "w"] 1] 1)) 3 = none ∧
    nthOutV2 (Table.mk "W" [Page.mk none [some "w"] 1] 1)
      (ScanState.init (Table.mk "W" [Page.mk none [some "w"] 1] 1)) 1 = none ∧
    nthOutV2 (Table.mk "W" [Page.mk none [some "w"] 1] 1)
      (ScanState.init (Table.mk "W" [Page.mk none [some "w"] 1] 1)) 3 = none := by
  have hwf : WFTable (Table.mk "W" [Page.mk none [some "w"] 1] 1) := by decide
  have h1 : TableScanOperator.next (Table.mk "W" [Page.mk none [some "w"] 1] 1)
      ⟨0, 0, some (Page.mk none [some "w"] 1), []⟩ =
      (some "w", ⟨1, 0, some (Page.mk none [some "w"] 1), []⟩) := by
    rw [TableScanOperator.next]
    rfl
  have h2 : TableScanOperator.next (Table.mk "W" [Page.mk none [some "w"] 1] 1)
      ⟨1, 0, some (Page.mk none [some "w"] 1), []⟩ =
      (none, ⟨1, 1, none, [0]⟩) := by
    rw [TableScanOperator.next]
    rfl
  have h1v : TableScanOperator.nextV2 (Table.mk "W" [Page.mk none [some "w"] 1] 1)
      ⟨0, 0, some (Page.mk none [some "w"] 1), []⟩ =
      (some "w", ⟨1, 0, some (Page.mk none [some "w"] 1), []⟩) := by
    rw [TableScanOperator.nextV2]
    rfl
  have h2v : TableScanOperator.nextV2 (Table.mk "W" [Page.mk none [some "w"] 1] 1)
      ⟨1, 0, some (Page.mk none [some "w"] 1), []⟩ =
      (none, ⟨1, 1, none, [0]⟩) := by
    rw [TableScanOperator.nextV2]
    rfl
  have e1 : nthOut (Table.mk "W" [Page.mk none [some "w"] 1] 1)
      (ScanState.init (Table.mk "W" [Page.mk none [some "w"] 1] 1)) 1 = none := by
    show (TableScanOperator.next (Table.mk "W" [Page.mk none [some "w"] 1] 1)
        (TableScanOperator.next (Table.mk "W" [Page.mk none [some "w"] 1] 1)
          (ScanState.init (Table.mk "W" [Page.mk none [some "w"] 1] 1))).2).1 = none
    rw [show ScanState.init (Table.mk "W" [Page.mk none [some "w"] 1] 1) =
      ⟨0, 0, some (Page.mk none [some "w"] 1), []⟩ from rfl]
    simp only [h1, h2]
  have e1v : nthOutV2 (Table.mk "W" [Page.mk none [some "w"] 1] 1)
      (ScanState.init (Table.mk "W" [Page.mk none [some "w"] 1] 1)) 1 = none := by
    show (TableScanOperator.nextV2 (Table.mk "W" [Page.mk none [some "w"] 1] 1)
        (TableScanOperator.nextV2 (Table.mk "W" [Page.mk none [some "w"] 1] 1)
          (ScanState.init (Table.mk "W" [Page.mk none [some "w"] 1] 1))).2).1 = none
    rw [show ScanState.init (Table.mk "W" [Page.mk none [some "w"] 1] 1) =
      ⟨0, 0, some (Page.mk none [some "w"] 1), []⟩ from rfl]
    simp only [h1v, h2v]
  exact ⟨hwf, e1,
    (c5_exhaustion_terminal _ hwf).1 1 3 (by decide) e1, e1v,
    (c5_exhaustion_terminal _ hwf).2 1 3 (by decide) e1v⟩

/-- Claim C10 (confirmed): the end-of-stream signal is in-band (the null
pointer, the same value an unwritten slot holds). The executeSelect driver
hands its sink exactly the values Next produced before the first null return,
one call per value and in call order, and then returns; the sink list is a
list of genuine strings, so the sink never receives a null record, and the
call right after the handed-over prefix returns null whether that null is the
exhaustion signal or a null stored in a reachable slot. The InBounds
hypothesis restricts the statement to table states on which the slot reads of
the source are defined. -/
theorem c10_executeSelect_inband (db : Database) (name : String) (t : Table)
    (ht : db.getTable name = some t) (hb : InBounds t) :
    ExecutionEngine.executeSelect db name =
      some (driveFuel t (totalRecords t + 1) (ScanState.init t)) ∧
    outs t (ScanState.init t)
        (driveFuel t (totalRecords t + 1) (ScanState.init t)).length =
      (driveFuel t (totalRecords t + 1) (ScanState.init t)).map some ∧
    nthOut t (ScanState.init t)
        (driveFuel t (totalRecords t + 1) (ScanState.init t)).length = none := by
  have hfuel : scanMeasure t (ScanState.init t) < totalRecords t + 1 := by
    have := scanMeasure_init_le t
    omega
  obtain ⟨h1, h2⟩ := driveFuel_spec t (totalRecords t + 1) (ScanState.init t) hfuel
  refine ⟨?_, h1, h2⟩
  simp only [ExecutionEngine.executeSelect, ht]

/-- Witness for C10: a catalog holding a table whose single page stores a
record, then a null in a reachable slot, then another record; the driver
stops at the in-band null exactly as at exhaustion. -/
theorem c10_executeSelect_inband_witness :
    ExecutionEngine.executeSelect
        (Database.mk [("T", Table.mk "T"
          [Page.mk none [some "a", none, some "b"] 3] 5)]) "T" =
      some (driveFuel
        (Table.mk "T" [Page.mk none [some "a", none, some "b"] 3] 5)
        (totalRecords
          (Table.mk "T" [Page.mk none [some "a", none, some "b"] 3] 5) + 1)
        (ScanState.init
          (Table.mk "T" [Page.mk none [some "a", none, some "b"] 3] 5))) ∧
    outs (Table.mk "T" [Page.mk none [some "a", none, some "b"] 3] 5)
        (ScanState.init
          (Table.mk "T" [Page.mk none [some "a", none, some "b"] 3] 5))
        (driveFuel
          (Table.mk "T" [Page.mk none [some "a", none, some "b"] 3] 5)
          (totalRecords
            (Table.mk "T" [Page.mk none [some "a", none, some "b"] 3] 5) + 1)
          (ScanState.init
            (Table.mk "T" [Page.mk none [some "a", none, some "b"] 3] 5))).length =
      (driveFuel
        (Table.mk "T" [Page.mk none [some "a", none, some "b"] 3] 5)
        (totalRecords
          (Table.mk "T" [Page.mk none [some "a", none, some "b"] 3] 5) + 1)
        (ScanState.init
          (Table.mk "T" [Page.mk none [some "a", none, some "b"] 3] 5))).map some ∧
    nthOut (Table.mk "T" [Page.mk none [some "a", none, some "b"] 3] 5)
        (ScanState.init
          (Table.mk "T" [Page.mk none [some "a", none, some "b"] 3] 5))
        (driveFuel
          (Table.mk "T" [Page.mk none [some "a", none, some "b"] 3] 5)
          (totalRecords
            (Table.mk "T" [Page.mk none [some "a", none, some "b"] 3] 5) + 1)
          (ScanState.init
            (Table.mk "T" [Page.mk none [some "a", none, some "b"] 3] 5))).length =
      none :=
  c10_executeSelect_inband
    (Database.mk [("T", Table.mk "T" [Page.mk none [some "a", none, some "b"] 3] 5)])
    "T" (Table.mk "T" [Page.mk none [some "a", none, some "b"] 3] 5)
    rfl (by decide)

/-- Witness for the amended C8: capacity -3 on the empty catalog; the call
succeeds, binds a table of capacity -3, and any insert into it is an
out-of-bounds write. -/
theorem c8_createTable_no_capacity_check_witness :
    (Database.empty.createTable "T" (-3)).2 = Except.ok () ∧
    (Database.empty.createTable "T" (-3)).1.getTable "T" =
      some (Table.mk "T" [] (-3)) ∧
    ∀ payload, ((Database.empty.createTable "T" (-3)).1.insertInto "T" payload).2 =
      Except.error DbError.undefinedBehavior :=
  c8_createTable_no_capacity_check Database.empty "T" (-3) (by decide) rfl

end DbEngine
